import Mathlib

/-!
Verification development for the order-aggregation bot.

The definitions below are shallow embeddings of the Python sources:
  * `bot/utils/phones.py`   — digit-phone regex extraction, spoken-digit extraction
  * `bot/utils/amounts.py`  — monetary-amount extraction
  * `bot/handlers/order_utils.py` — client-phone election and product/comment split
  * `bot/storage.py`        — session store (get-or-create, readiness)
  * `bot/handlers/orders.py` — the per-message group handler decision core

Python strings are modelled as `List Char`; Python `set`s as duplicate-free
lists (first-occurrence order); Python `float` amounts as exact rationals
(only decimal literals ever reach that code path, and no claim depends on
IEEE rounding); wall-clock times as integers.  `str.lower` is modelled for
the ASCII and Cyrillic ranges, which covers every keyword list in the
sources.  Where a module referenced by the sources is absent (models.py,
utils/locations.py), the corresponding definition is modelled from the
specification and marked as such in its doc comment.
-/

namespace Spec2Proof

abbrev Str := List Char

/-! ## Generic helpers shared by the embeddings -/

/-- membership-accumulating duplicate removal that keeps the first
occurrence of each element, matching the explicit dedup loops in the
sources (and modelling Python `set` construction at set-semantics level). -/
def dedupFirstAux : List String → List String → List String
  | [], _ => []
  | x :: xs, seen => if x ∈ seen then dedupFirstAux xs seen else x :: dedupFirstAux xs (x :: seen)

def dedupFirst (l : List String) : List String := dedupFirstAux l []

/-- insertion of a string into a ≤-sorted list of strings. -/
def insertSorted (x : String) : List String → List String
  | [] => [x]
  | y :: ys => if x ≤ y then x :: y :: ys else y :: insertSorted x ys

/-- model of Python `sorted` on strings (code-point lexicographic order). -/
def sortStrings (l : List String) : List String := l.foldr insertSorted []

/-- model of Python `str.lower` for one character, covering the ASCII and
Cyrillic alphabets used by the sources' keyword lists. -/
def pyLowerChar (c : Char) : Char :=
  if 'A' ≤ c ∧ c ≤ 'Z' then Char.ofNat (c.toNat + 32)
  else if 'А' ≤ c ∧ c ≤ 'Я' then Char.ofNat (c.toNat + 32)
  else if c = 'Ё' then 'ё'
  else c

def pyLower (cs : Str) : Str := cs.map pyLowerChar

def pyLowerStr (s : String) : String := (pyLower s.data).asString

/-- leading-segment test: `beginsWith hay needle` holds when `needle` is an
initial segment of `hay`. -/
def beginsWith : Str → Str → Bool
  | _, [] => true
  | [], _ :: _ => false
  | h :: hs, n :: ns => h = n && beginsWith hs ns

/-- model of Python `needle in hay` substring containment. -/
def containsSub : Str → Str → Bool
  | [], needle => needle = []
  | c :: hs, needle => beginsWith (c :: hs) needle || containsSub hs needle

def strContains (hay needle : String) : Bool := containsSub hay.data needle.data

/-- model of Python `str.strip()`. -/
def pyStrip (cs : Str) : Str :=
  ((cs.dropWhile Char.isWhitespace).reverse.dropWhile Char.isWhitespace).reverse

/-- model of Python `str.splitlines()` (handles `\n`, `\r`, `\r\n`,
drops a trailing empty fragment, empty string gives no lines). -/
def splitlinesAux : Str → Str → List Str
  | [], acc => if acc = [] then [] else [acc.reverse]
  | '\r' :: '\n' :: rest, acc => acc.reverse :: splitlinesAux rest []
  | '\r' :: rest, acc => acc.reverse :: splitlinesAux rest []
  | '\n' :: rest, acc => acc.reverse :: splitlinesAux rest []
  | c :: rest, acc => splitlinesAux rest (c :: acc)

def pySplitlines (cs : Str) : List Str := splitlinesAux cs []

/-- whitespace-splitting into nonempty tokens, modelling
`re.split(r"\s+", ...)` with empty fragments discarded. -/
def splitWsAux : Str → Str → List Str
  | [], acc => if acc = [] then [] else [acc.reverse]
  | c :: rest, acc =>
      if c.isWhitespace then
        if acc = [] then splitWsAux rest [] else acc.reverse :: splitWsAux rest []
      else splitWsAux rest (c :: acc)

def splitWs (cs : Str) : List Str := splitWsAux cs []

/-- last `n` elements of a list, modelling Python's `l[-n:]`. -/
def lastN (n : Nat) (l : Str) : Str := l.drop (l.length - n)

/-- numeric value of a digit string, modelling Python `int(...)` on an
all-digit string. -/
def natOfDigits (l : Str) : Nat := l.foldl (fun a c => a * 10 + (c.toNat - '0'.toNat)) 0

/-! ## `bot/utils/phones.py` — digit-phone extraction

`PHONE_REGEX = (\+?\d(?:[ \-\(\)]*\d){7,})` is embedded as an explicit
scanner with Python `re` semantics: at each position the engine tries a
greedy match (optional `+`, a digit, then greedily `separators* digit`
groups, at least 7 of them); on failure it retries one position to the
right, on success it resumes after the match. -/

/-- separator class `[ \-\(\)]` of `PHONE_REGEX`. -/
def sepChar (c : Char) : Bool := c = ' ' ∨ c = '-' ∨ c = '(' ∨ c = ')'

/-- greedy `(?:[ \-\(\)]*\d)*` consumption: returns the consumed characters,
the rest of the input, and the number of digits consumed.  Separator runs
not followed by a digit are left unconsumed.  `fuel ≥ input length` is
always sufficient since every iteration consumes at least one character. -/
def pairsAuxF : Nat → Str → Str × Str × Nat
  | 0, cs => ([], cs, 0)
  | fuel + 1, cs =>
      let seps := cs.takeWhile sepChar
      match cs.dropWhile sepChar with
      | [] => ([], cs, 0)
      | d :: rest =>
          if d.isDigit then
            let r := pairsAuxF fuel rest
            (seps ++ d :: r.1, r.2.1, r.2.2 + 1)
          else ([], cs, 0)

/-- match attempt for `\d(?:[ \-\(\)]*\d){7,}` at the current position. -/
def tryCore (cs : Str) : Option (Str × Str) :=
  match cs with
  | [] => none
  | d :: rest =>
      if d.isDigit then
        let r := pairsAuxF rest.length rest
        if 7 ≤ r.2.2 then some (d :: r.1, r.2.1) else none
      else none

/-- match attempt for the full `\+?\d(?:[ \-\(\)]*\d){7,}` at the current
position (a `+` not followed by a valid core cannot match, since the
backtracked alternative needs a digit where the `+` stands). -/
def tryMatch (cs : Str) : Option (Str × Str) :=
  match cs with
  | '+' :: rest =>
      match tryCore rest with
      | some (m, rest') => some ('+' :: m, rest')
      | none => none
  | _ => tryCore cs

/-- scanning loop of `re.findall`: advance one character on failure, resume
after the match on success.  `fuel ≥ input length` is always sufficient. -/
def findMatchesF : Nat → Str → List String
  | 0, _ => []
  | _ + 1, [] => []
  | fuel + 1, c :: cs =>
      match tryMatch (c :: cs) with
      | some (m, rest) => m.asString :: findMatchesF fuel rest
      | none => findMatchesF fuel cs

/-- model of `PHONE_REGEX.findall(text)`. -/
def pyFindMatches (cs : Str) : List String := findMatchesF cs.length cs

/-- embedding of `normalize_phone` (phones.py lines 12–35). -/
def normalize_phone (raw : String) : Option String :=
  let digits := raw.data.filter Char.isDigit
  if digits.length < 9 then none
  else if digits.take 3 = ['9', '9', '8'] ∧ digits.length = 12 then
    some ("+" ++ digits.asString)
  else if digits.length = 9 then
    some ("+998" ++ digits.asString)
  else
    some ("+" ++ digits.asString)

/-- embedding of `extract_phones` (phones.py lines 38–65); the Python `set`
of normalized phones is modelled as a duplicate-free list in first-found
order. -/
def extract_phones (text : String) : List String :=
  if text.data = [] then []
  else dedupFirst ((pyFindMatches text.data).filterMap normalize_phone)

/-- deterministic rendering of an extracted phone list back to text, one
phone per line (the spec's `extract_phones_rendered`). -/
def renderPhones : List String → String
  | [] => ""
  | [p] => p
  | p :: ps => p ++ "\n" ++ renderPhones ps

/-! ## `bot/utils/phones.py` — spoken-digit extraction -/

/-- character class kept by `re.sub(r"[^\w\s'ʼ`’]", " ", ...)`: word
characters (ASCII and Cyrillic letters, digits, underscore), whitespace,
and the four listed apostrophe-like characters; everything else becomes a
space. -/
def pyIsWordChar (c : Char) : Bool :=
  c.isAlphanum || c = '_' ||
  ('а' ≤ c && c ≤ 'я') || ('А' ≤ c && c ≤ 'Я') || c = 'ё' || c = 'Ё'

def keepWordChar (c : Char) : Char :=
  if pyIsWordChar c || c.isWhitespace || c = '\'' || c = 'ʼ' || c = '`' || c = '’' then c
  else ' '

def cleanWordText (cs : Str) : Str := cs.map keepWordChar

/-- embedding of `_normalize_token` (identical in phones.py and
amounts.py): lowercase, then map the apostrophe variants to `'`. -/
def normalizeToken (w : Str) : Str :=
  (pyLower w).map fun c => if c = '’' || c = '`' || c = '‘' || c = 'ʼ' then '\'' else c

/-- embedding of `DIGIT_WORDS_PHONE` (phones.py lines 72–105). -/
def digitWordsPhone : List (String × String) :=
  [("nol", "0"), ("nolik", "0"), ("bir", "1"), ("ikki", "2"), ("uch", "3"),
   ("tort", "4"), ("to'rt", "4"), ("turt", "4"), ("besh", "5"), ("olti", "6"),
   ("yetti", "7"), ("etti", "7"), ("sakkiz", "8"), ("toqqiz", "9"),
   ("to'qqiz", "9"), ("toqiz", "9"),
   ("on", "10"), ("yigirma", "20"), ("ottiz", "30"), ("o'ttiz", "30"),
   ("qirq", "40"), ("ellik", "50"), ("oltmish", "60"), ("yetmish", "70"),
   ("sakson", "80"), ("to'qson", "90"), ("toqson", "90"), ("to'qsonlik", "90"),
   ("toqsonlik", "90")]

/-- scale words skipped by the spoken-phone scanner (phones.py line 176). -/
def phoneScaleWords : List String := ["yuz", "ming", "million", "mln"]

/-- embedding of `_postprocess_phone_digits` (phones.py lines 119–137):
runs longer than 9 keep their last 9 digits; runs shorter than 5 are
dropped. -/
def postprocessPhoneDigits (seq : Str) : Option Str :=
  if seq = [] then none
  else
    let s := if 9 < seq.length then lastN 9 seq else seq
    if s.length < 5 then none else some s

/-- spoken-scanner state: accumulated digit sequences and the digit strings
of the current run (joined at flush time, as in the source). -/
def spokenFlush : List Str × List Str → List Str × List Str
  | (seqs, cur) =>
      if cur = [] then (seqs, cur)
      else
        match postprocessPhoneDigits cur.flatten with
        | some p => (seqs ++ [p], [])
        | none => (seqs, [])

/-- per-token step of `extract_spoken_phone_candidates` (phones.py lines
167–180): number words append their digits, scale words are skipped, any
other word flushes the current run. -/
def spokenStep (st : List Str × List Str) (tok : Str) : List Str × List Str :=
  let w := (normalizeToken tok).asString
  match digitWordsPhone.lookup w with
  | some d => (st.1, st.2 ++ [d.data])
  | none =>
      if phoneScaleWords.contains w then st
      else spokenFlush st

/-- embedding of `extract_spoken_phone_candidates` (phones.py lines
140–191). -/
def extract_spoken_phone_candidates (text : String) : List String :=
  let tokens := splitWs (cleanWordText text.data)
  let st := spokenFlush (tokens.foldl spokenStep ([], []))
  dedupFirst (st.1.map List.asString)

/-! ## `bot/utils/amounts.py` -/

def unitsWords : List (String × Nat) :=
  [("nol", 0), ("bir", 1), ("ikki", 2), ("uch", 3), ("tort", 4), ("to'rt", 4),
   ("turt", 4), ("besh", 5), ("olti", 6), ("yetti", 7), ("sakkiz", 8), ("toqqiz", 9)]

def tensWords : List (String × Nat) :=
  [("on", 10), ("yigirma", 20), ("ottiz", 30), ("o'ttiz", 30), ("qirq", 40),
   ("ellik", 50), ("oltmish", 60), ("yetmish", 70), ("sakson", 80),
   ("to'qson", 90), ("toqson", 90), ("to'qsonlik", 90), ("toqsonlik", 90)]

def scalesWords : List (String × Nat) :=
  [("yuz", 100), ("ming", 1000), ("million", 1000000), ("mln", 1000000)]

def moneyKeywords : List String :=
  ["summa", "sum", "so'm", "som", "сум", "сом", "тыс", "ming", "минг", "min"]

/-- exact unnormalised fraction, modelling the Python `float` values that
flow through `_parse_number_phrase`: every value arising there is a sum of
naturals and exact decimal literals, so exact fraction arithmetic is a
faithful value model (no claim depends on IEEE rounding). -/
structure PyNum where
  num : Int
  den : Nat
deriving DecidableEq, Repr

def PyNum.ofNat (n : Nat) : PyNum := ⟨n, 1⟩

def PyNum.add (a b : PyNum) : PyNum := ⟨a.num * b.den + b.num * a.den, a.den * b.den⟩

def PyNum.mulNat (a : PyNum) (n : Nat) : PyNum := ⟨a.num * n, a.den⟩

/-- Python `current == 0` on the fraction model (denominators stay
positive). -/
def PyNum.isZero (a : PyNum) : Bool := a.num = 0

/-- Python `int(...)` truncation; every value reaching it here is
non-negative, where truncation and floor agree. -/
def PyNum.toInt (a : PyNum) : Int := a.num / (a.den : Int)

/-- model of the numeric-token branch `re.fullmatch(r"\d+([\.,]\d+)?", w)`
followed by `float(w.replace(",", "."))`. -/
def pyParseDecimal (w : Str) : Option PyNum :=
  let intPart := w.takeWhile Char.isDigit
  let rest := w.dropWhile Char.isDigit
  if intPart = [] then none
  else
    match rest with
    | [] => some (PyNum.ofNat (natOfDigits intPart))
    | c :: frac =>
        if (c = '.' || c = ',') && frac ≠ [] && frac.all Char.isDigit then
          some ⟨natOfDigits intPart * 10 ^ frac.length + natOfDigits frac, 10 ^ frac.length⟩
        else none

/-- per-token step of `_parse_number_phrase` (amounts.py lines 83–102);
the state is `(total, current)`. -/
def parsePhraseStep (st : PyNum × PyNum) (tok : Str) : PyNum × PyNum :=
  let w := (normalizeToken tok).asString
  match unitsWords.lookup w with
  | some u => (st.1, st.2.add (PyNum.ofNat u))
  | none =>
  match tensWords.lookup w with
  | some t => (st.1, st.2.add (PyNum.ofNat t))
  | none =>
  match scalesWords.lookup w with
  | some sc =>
      let cur := if st.2.isZero then PyNum.ofNat 1 else st.2
      let cur := cur.mulNat sc
      if 1000 ≤ sc then (st.1.add cur, PyNum.ofNat 0) else (st.1, cur)
  | none =>
  match pyParseDecimal (normalizeToken tok) with
  | some v => (st.1, st.2.add v)
  | none => st

/-- embedding of `_parse_number_phrase` (amounts.py lines 75–104). -/
def parseNumberPhrase (tokens : List Str) : Int :=
  let st := tokens.foldl parsePhraseStep (PyNum.ofNat 0, PyNum.ofNat 0)
  (st.1.add st.2).toInt

/-- token list used by `_extract_yuz_ming_candidates` (lowercase, cleaned,
whitespace-split). -/
def amountTokens (cs : Str) : List Str := splitWs (cleanWordText (pyLower cs))

/-- backward search for the nearest preceding `yuz` token (amounts.py lines
119–123). -/
def findYuzBack (tokens : List Str) (j : Nat) : Option Nat :=
  (List.range j).reverse.find? fun k => (normalizeToken (tokens.getD k [])).asString = "yuz"

/-- embedding of `_extract_yuz_ming_candidates` (amounts.py lines 107–134),
returning the candidate values (the phrase tokens only feed debug logs). -/
def yuzMingCandidates (tokens : List Str) : List Int :=
  (List.range tokens.length).filterMap fun j =>
    if (normalizeToken (tokens.getD j [])).asString = "ming" then
      match findYuzBack tokens j with
      | some k =>
          let start := k - 1
          let phrase := (tokens.drop start).take (j + 1 - start)
          let v := parseNumberPhrase phrase
          if 0 < v then some v else none
      | none => none
    else none

/-- embedding of `_looks_like_phone` (amounts.py lines 137–156). -/
def looks_like_phone (digits : Str) : Bool :=
  if digits = [] then false
  else if 11 ≤ digits.length ∧ digits.take 3 = ['9', '9', '8'] then true
  else if (digits.length = 9 ∨ digits.length = 10 ∨ digits.length = 11 ∨ digits.length = 12)
      ∧ (digits.head? = some '9' ∨ digits.head? = some '8') then true
  else false

/-- scanner for `re.finditer(r"\d[\d\s]*", ...)`: maximal runs starting at
a digit and continuing through digits and whitespace, with their start and
(exclusive) end positions.  `fuel ≥ input length` is always sufficient. -/
def digitRunsF : Nat → Str → Nat → List (Nat × Nat × Str)
  | 0, _, _ => []
  | _ + 1, [], _ => []
  | fuel + 1, c :: cs, pos =>
      if c.isDigit then
        let body := cs.takeWhile fun x => x.isDigit || x.isWhitespace
        let rest := cs.dropWhile fun x => x.isDigit || x.isWhitespace
        let run := c :: body
        (pos, pos + run.length, run) :: digitRunsF fuel rest (pos + run.length)
      else digitRunsF fuel cs (pos + 1)

def pyDigitRuns (cs : Str) : List (Nat × Nat × Str) := digitRunsF cs.length cs 0

/-- scored candidate produced from one digit run by the digit-based pass of
`extract_amount_from_text` (amounts.py lines 192–245); `none` when the run
is skipped as phone-like. -/
def runCandidate (cleaned : Str) (r : Nat × Nat × Str) : Option (Int × Int) :=
  let digits := r.2.2.filter Char.isDigit
  if digits = [] then none
  else if looks_like_phone digits then none
  else
    let base : Int := natOfDigits digits
    let ws := r.1 - 25
    let we := min cleaned.length (r.2.1 + 25)
    let window := pyLower ((cleaned.drop ws).take (we - ws))
    let score0 : Int := 0
    let score1 := if moneyKeywords.any (fun kw => containsSub window kw.data) then score0 + 3 else score0
    let hasMing := ["ming", "минг", "min"].any fun kw => containsSub window kw.data
    let mult : Int := if base < 1000 ∧ hasMing then 1000 else 1
    let score2 := if base < 1000 ∧ hasMing then score1 + 2 else score1
    let value := base * mult
    let score3 := if 1000 ≤ value then score2 + 2 else score2
    let score4 := if 0 < value ∧ value < 100 then score3 - 1 else score3
    some (value, score4)

/-- strict "later candidate wins" comparison of `(value, score)` pairs under
the sort key `(score, value)`; mirrors the stable descending sort followed
by taking the head. -/
def betterCand (a b : Int × Int) : Bool := a.2 < b.2 ∨ (a.2 = b.2 ∧ a.1 < b.1)

def pickBestAux : Int × Int → List (Int × Int) → Int
  | best, [] => best.1
  | best, c :: rest => pickBestAux (if betterCand best c then c else best) rest

def pickBest : List (Int × Int) → Option Int
  | [] => none
  | c :: rest => some (pickBestAux c rest)

/-- embedding of `extract_amount_from_text` (amounts.py lines 159–261). -/
def extract_amount_from_text (text : String) : Option Int :=
  if text.data = [] then none
  else
    let cleaned := text.data.map fun c => if c = Char.ofNat 160 then ' ' else c
    let phraseCands := (yuzMingCandidates (amountTokens cleaned)).map fun v => (v, (5 : Int))
    let digitCands := (pyDigitRuns cleaned).filterMap (runCandidate cleaned)
    pickBest (phraseCands ++ digitCands)

/-! ## `bot/handlers/order_utils.py` -/

/-- embedding of `COMMENT_KEYWORDS` (order_utils.py lines 12–65). -/
def commentKeywords : List String :=
  ["kuryer", "kurier", "kur'er", "курьер",
   "eshik oldida", "eshik oldida kut", "eshik oldida kutib",
   "eshik oldida kutib turaman", "eshik oldida kutib turing",
   "uyga olib chiqib bering", "uyga olib chiqib ber", "uyga olib chiqing",
   "uyga obchiqib bering",
   "orqa eshik", "oldi eshik", "oldida kutaman", "kutib turaman",
   "moshinada kuting", "машинада кутиб",
   "к клиенту", "klientga",
   "подъезд", "подьезд", "подъез", "подьез", "podezd", "podyezd",
   "этаж", "etaж", "etaj", "qavat",
   "kvartira", "kv.", "kv ", "квартир", "кв ",
   "dom", "дом", "uy", "mahalla", "mahallasi", "mavze", "район", "tuman"]

/-- embedding of `normalize_digits` (order_utils.py lines 68–72). -/
def normalize_digits (s : Str) : Str := s.filter Char.isDigit

/-- client-marking keywords of `choose_client_phones` (lines 96–110). -/
def clientKw : List String :=
  ["номер клиента", "клиента", "клиент:", "клиент ", "mijoz", "mijoz:",
   "mijoz tel", "telefon klienta", "номер клиентa", "покупатель",
   "номер покупателя", "client", "klient"]

/-- shop-marking keywords of `choose_client_phones` (lines 112–127). -/
def shopKw : List String :=
  ["номер нашего магазина", "нашего магазина", "наш магазин", "магазин",
   "magazin", "our shop", "номер магазина", "kids plate", "kidsplate",
   "магазин детского питания", "наша точка", "наш номер", "наш тел",
   "наш телефон"]

inductive PhoneRole
  | unknown
  | shop
  | client
deriving DecidableEq, Repr

/-- `if p not in phone_role: phone_role[p] = "unknown"`. -/
def ensureKey (roles : List (String × PhoneRole)) (p : String) : List (String × PhoneRole) :=
  if roles.any (·.1 = p) then roles else roles ++ [(p, .unknown)]

def updateRole (roles : List (String × PhoneRole)) (p : String) (r : PhoneRole) :
    List (String × PhoneRole) :=
  roles.map fun e => if e.1 = p then (e.1, r) else e

def getRole (roles : List (String × PhoneRole)) (p : String) : PhoneRole :=
  (roles.lookup p).getD .unknown

/-- per-phone marking step shared by both passes of `choose_client_phones`
(lines 141–148 and 164–171): a shop line overrides, a client line only
marks phones not already marked shop. -/
def applyMark (isShop isClient : Bool) (roles : List (String × PhoneRole)) (p : String) :
    List (String × PhoneRole) :=
  let roles := ensureKey roles p
  if isShop then updateRole roles p .shop
  else if isClient ∧ getRole roles p ≠ .shop then updateRole roles p .client
  else roles

/-- first pass of `choose_client_phones`: whole-message keyword scan
(lines 131–148). -/
def pass1Msg (roles : List (String × PhoneRole)) (msg : String) : List (String × PhoneRole) :=
  let low := pyLower msg.data
  let msgPhones := extract_phones msg
  if msgPhones = [] then roles
  else
    let isShop := shopKw.any fun kw => containsSub low kw.data
    let isClient := clientKw.any fun kw => containsSub low kw.data
    msgPhones.foldl (applyMark isShop isClient) roles

/-- second pass of `choose_client_phones`: line-level refinement
(lines 150–171). -/
def pass2Line (roles : List (String × PhoneRole)) (lineRaw : Str) : List (String × PhoneRole) :=
  let line := pyStrip lineRaw
  if line = [] then roles
  else
    let low := pyLower line
    let linePhones := extract_phones line.asString
    if linePhones = [] then roles
    else
      let isShop := shopKw.any fun kw => containsSub low kw.data
      let isClient := clientKw.any fun kw => containsSub low kw.data
      linePhones.foldl (applyMark isShop isClient) roles

def pass2Msg (roles : List (String × PhoneRole)) (msg : String) : List (String × PhoneRole) :=
  (pySplitlines msg.data).foldl pass2Line roles

/-- role table after both passes, starting from the accumulated phone set
(every phone initialised `unknown`, line 129). -/
def phoneRoles (raw_messages : List String) (phones : List String) : List (String × PhoneRole) :=
  let init := (dedupFirst phones).map fun p => (p, PhoneRole.unknown)
  raw_messages.foldl pass2Msg (raw_messages.foldl pass1Msg init)

/-- phones the two passes marked `client`. -/
def clientMarked (raw_messages : List String) (phones : List String) : List String :=
  ((phoneRoles raw_messages phones).filter fun e => e.2 = .client).map (·.1)

/-- phones the two passes did not mark `shop`. -/
def nonShopMarked (raw_messages : List String) (phones : List String) : List String :=
  ((phoneRoles raw_messages phones).filter fun e => e.2 ≠ .shop).map (·.1)

/-- embedding of `choose_client_phones` (order_utils.py lines 86–183). -/
def choose_client_phones (raw_messages : List String) (phones : List String) : List String :=
  if phones = [] then []
  else
    let clientPhones := clientMarked raw_messages phones
    if clientPhones ≠ [] then sortStrings (dedupFirst clientPhones)
    else
      let nonShop := sortStrings (dedupFirst (nonShopMarked raw_messages phones))
      if nonShop.length = 1 then nonShop
      else if nonShop ≠ [] then nonShop
      else sortStrings (dedupFirst phones)

/-- phone-label keywords of the drop rule in `build_final_texts`
(lines 215–225). -/
def phoneLabelKw : List String :=
  ["номер телефона", "номер клиента", "телефон:", "telefon:", "телефон ", "telefon "]

/-- digit-suffix test `digits.endswith(cd)`. -/
def endsWithSub (l suffix : Str) : Bool := beginsWith l.reverse suffix.reverse

/-- per-message step of the partition loop in `build_final_texts`
(lines 204–245).  The accumulator is `(product_lines, comment_lines)`.
Note: the source computes `is_pure_client_phone` but the final unguarded
`product_lines.append(text)` (line 245) is reached whenever the guarded
append (lines 241–243) is not, so the line is appended either way; the
embedding reproduces that fallthrough faithfully. -/
def finalTextStep (client_digits : List String) (acc : List String × List String)
    (msg : String) : List String × List String :=
  let text := pyStrip msg.data
  if text = [] then acc
  else
    let low := pyLower text
    let has_digits := text.any Char.isDigit
    let digits := normalize_digits text
    if extract_phones text.asString ≠ [] ∧ phoneLabelKw.any (fun kw => containsSub low kw.data) then
      acc
    else if commentKeywords.any (fun kw => containsSub low kw.data) then
      (acc.1, acc.2 ++ [text.asString])
    else
      let is_pure_client_phone := has_digits ∧ digits ≠ [] ∧ client_digits.any fun cd =>
        cd.data ≠ [] ∧ endsWithSub digits cd.data ∧ digits.length ≤ 13
      if has_digits ∧ ¬is_pure_client_phone then (acc.1 ++ [text.asString], acc.2)
      else (acc.1 ++ [text.asString], acc.2)

/-- last-7-digit tails of the elected client phones (lines 195–199). -/
def clientDigitTails (client_phones : List String) : List String :=
  dedupFirst (client_phones.filterMap fun p =>
    let d := normalize_digits p.data
    if d = [] then none else some ((lastN 7 d).asString))

/-- embedding of `build_final_texts` (order_utils.py lines 186–247):
returns `(client_phones, product_lines, comment_lines)`. -/
def build_final_texts (raw_messages : List String) (phones : List String) :
    List String × List String × List String :=
  let client_phones := choose_client_phones raw_messages phones
  let client_digits := clientDigitTails client_phones
  let acc := raw_messages.foldl (finalTextStep client_digits) ([], [])
  (client_phones, acc.1, acc.2)

/-! ## `bot/storage.py` and the handler decision core of
`bot/handlers/orders.py`

The session record class `OrderSession` lives in `bot/models.py`, which is
not among the sources; its fields and defaults are modelled from §3 of the
spec.  `bot/utils/locations.py` is likewise absent and modelled from §4.3.
The message transport (aiogram) is modelled by the fields the handler
reads; the classifier verdict enters as a parameter because classification
may come from the external language model (`classify_text_ai` returns its
parsed JSON verbatim when the model call succeeds).  The `Settings` fields
`error_group_id` and `ai_check_group_id` read by the handler are absent
from the `Settings` dataclass in `config.py`; they are modelled here as
optional ids, the shape the handler code expects.  Logging-only blocks
(dataset lines, AI-check forwarding) neither mutate the session nor affect
the finalize decision and are elided. -/

inductive PyLoc
  | native (lat lon : Int)
  | text (raw : String)
deriving DecidableEq, Repr

structure OrderSession where
  user_id : Int
  chat_id : Int
  raw_messages : List String
  phones : List String
  location : Option PyLoc
  is_completed : Bool
  created_at : Int
  updated_at : Int
deriving DecidableEq, Repr

/-- Modelled from the spec: `bot/models.py` (class `OrderSession`) is not
among the sources; §3 fixes a fresh session to an empty message history,
an empty phone set, no location, `is_completed = false`, and creation-time
timestamps. -/
def freshSession (uid cid now : Int) : OrderSession :=
  { user_id := uid, chat_id := cid, raw_messages := [], phones := [],
    location := none, is_completed := false, created_at := now, updated_at := now }

/-- message event as read by the handler: text (`message.text` or caption,
else empty), whether a native geo attachment is present, its coordinates,
and the sender/conversation ids. -/
structure PyMessage where
  text : String
  hasGeo : Bool
  lat : Int
  lon : Int
  user_id : Int
  chat_id : Int

/-- Modelled from the spec: `bot/utils/locations.py`
(`extract_location_from_message`) is not among the sources; §4.3: a native
geo attachment yields a native location, otherwise present (non-blank)
free text yields a text location with the trimmed text, otherwise
nothing. -/
def extract_location_from_message (m : PyMessage) : Option PyLoc :=
  if m.hasGeo then some (.native m.lat m.lon)
  else if pyStrip m.text.data ≠ [] then some (.text (pyStrip m.text.data).asString)
  else none

abbrev SessionKey := Int × Int

abbrev SessionStore := List (SessionKey × OrderSession)

def storeGet (st : SessionStore) (k : SessionKey) : Option OrderSession := st.lookup k

def storeSet (st : SessionStore) (k : SessionKey) (s : OrderSession) : SessionStore :=
  if st.any (·.1 = k) then st.map (fun e => if e.1 = k then (k, s) else e)
  else st ++ [(k, s)]

/-- embedding of `get_or_create_session` (storage.py lines 18–35): a
missing entry or one idle strictly longer than `max_diff_seconds` is
replaced by a fresh session, otherwise the existing entry is returned
untouched. -/
def get_or_create_session (maxDiffSeconds now : Int) (st : SessionStore) (m : PyMessage) :
    SessionStore × OrderSession :=
  let key := (m.chat_id, m.user_id)
  match storeGet st key with
  | some s =>
      if now - s.updated_at > maxDiffSeconds then
        let fresh := freshSession m.user_id m.chat_id now
        (storeSet st key fresh, fresh)
      else (st, s)
  | none =>
      let fresh := freshSession m.user_id m.chat_id now
      (storeSet st key fresh, fresh)

/-- embedding of `is_session_ready` (storage.py lines 38–39). -/
def is_session_ready (s : OrderSession) : Bool :=
  !s.phones.isEmpty && s.location.isSome

/-- classifier verdict as consumed by the handler (`classify_text_ai`
output fields). -/
structure Verdict where
  is_order_related : Bool
  role : String
  has_address_keywords : Bool

/-- `session.phones.add(p)` on the set-as-list model. -/
def addPhone (ps : List String) (p : String) : List String :=
  if p ∈ ps then ps else ps ++ [p]

/-- money keywords of the handler's rule-based fallback (orders.py
line 578). -/
def moneyKwHandler : List String :=
  ["summa", "ming", "min", "мин", "минг", "сум", "сом", "тыс"]

/-- rule-based product-shape test of the handler (orders.py lines
576–582): digits anywhere, or a money keyword in the lowercased text. -/
def hasProductCandidate (text : String) : Bool :=
  text.data.any Char.isDigit || moneyKwHandler.any fun kw => containsSub (pyLower text.data) kw.data

/-- fallback role override (orders.py lines 584–588), applied only when
the classifier returned `UNKNOWN`. -/
def fallbackRole (role0 : String) (text : String) : String :=
  if role0 = "UNKNOWN" then
    let r1 := if hasProductCandidate text then "PRODUCT" else role0
    if commentKeywords.any (fun kw => containsSub (pyLower text.data) kw.data) then "COMMENT"
    else r1
  else role0

/-- non-order divert condition (orders.py lines 591–597): an error group
is configured, the verdict is not order-related, the message carries no
extractable phone and no native location, and its text is not blank. -/
def errorDiverted (errorGroupId : Option Int) (m : PyMessage) (v : Verdict) : Bool :=
  errorGroupId.isSome && !v.is_order_related && (extract_phones m.text).isEmpty
    && !m.hasGeo && !(pyStrip m.text.data).isEmpty

/-- session after the three per-message merges of `handle_group_message`
(orders.py lines 484–499: history append, phone union, location
overwrite), before the `updated_at` refresh. -/
def mergedSession (m : PyMessage) (s : OrderSession) : OrderSession :=
  let s1 := if m.text.data ≠ [] then
      { s with raw_messages := s.raw_messages ++ [m.text] }
    else s
  let s2 := { s1 with phones := (extract_phones m.text).foldl addPhone s1.phones }
  match extract_location_from_message m with
  | some l => { s2 with location := some l }
  | none => s2

/-- trigger (a), `just_got_location` (orders.py lines 493–499): the
message carries a location and the session had none before the merge
(the history append and phone union do not touch `location`, so reading
it before or after them is the same). -/
def justGotLocationFlag (m : PyMessage) (s : OrderSession) : Bool :=
  (extract_location_from_message m).isSome && !s.location.isSome

/-- trigger (d), `phones_new` (orders.py lines 487–491): the phone set is
non-empty after the merge and was empty before it (the history append
does not touch `phones`, so reading them before or after it is the
same). -/
def phonesNewFlag (m : PyMessage) (s : OrderSession) : Bool :=
  !((extract_phones m.text).foldl addPhone s.phones).isEmpty && s.phones.isEmpty

/-- decision core of `handle_group_message` (orders.py lines 477–674) for
a message that is neither a manual-order step nor a reply-update: starting
from the session returned by `get_or_create_session`, it applies the
session mutations and returns the updated session together with whether a
finalize task was scheduled.  The merge steps and trigger flags are the
source's lines 484–499 factored into `mergedSession`,
`justGotLocationFlag` and `phonesNewFlag` above. -/
def handleGroupStep (errorGroupId : Option Int) (now : Int) (m : PyMessage) (v : Verdict)
    (session : OrderSession) : OrderSession × Bool :=
  if session.is_completed then (session, false)
  else
    let s3 := mergedSession m session
    let phones_new := phonesNewFlag m session
    let just_got_location := justGotLocationFlag m session
    let role := fallbackRole v.role m.text
    if errorDiverted errorGroupId m v then (s3, false)
    else
      let s4 := { s3 with updated_at := now }
      if !is_session_ready s4 || s4.is_completed then (s4, false)
      else
        let should_finalize := just_got_location || role = "PRODUCT"
          || v.has_address_keywords || phones_new || hasProductCandidate m.text
        (s4, should_finalize)

/-- per-key processing pipeline: get-or-create the session for the
message's key, run the handler decision core, write the session back. -/
def processGroupMessage (maxDiffSeconds : Int) (errorGroupId : Option Int) (now : Int)
    (st : SessionStore) (m : PyMessage) (v : Verdict) : SessionStore × Bool :=
  let key := (m.chat_id, m.user_id)
  let r := get_or_create_session maxDiffSeconds now st m
  let r2 := handleGroupStep errorGroupId now m v r.2
  (storeSet r.1 key r2.1, r2.2)

/-- shape of every string `extract_phones` can return: a `+` followed by
at least `n` digits. -/
def phoneShape (n : Nat) (p : String) : Prop :=
  ∃ ds : Str, p.data = '+' :: ds ∧ (∀ c ∈ ds, c.isDigit = true) ∧ n ≤ ds.length

/-! ## Lemmas about the shared helpers -/

theorem mem_dedupFirstAux {a : String} :
    ∀ (l seen : List String), a ∈ dedupFirstAux l seen ↔ a ∈ l ∧ a ∉ seen := by
  intro l
  induction l with
  | nil => intro seen; simp [dedupFirstAux]
  | cons x xs ih =>
      intro seen
      by_cases hax : a = x
      · subst hax
        by_cases hx : a ∈ seen <;>
          simp [dedupFirstAux, hx, ih]
      · by_cases hx : x ∈ seen <;>
          simp [dedupFirstAux, hx, ih, hax, List.mem_cons]

theorem mem_dedupFirst {a : String} {l : List String} : a ∈ dedupFirst l ↔ a ∈ l := by
  simp [dedupFirst, mem_dedupFirstAux]

theorem nodup_dedupFirstAux : ∀ (l seen : List String), (dedupFirstAux l seen).Nodup := by
  intro l
  induction l with
  | nil => intro seen; simp [dedupFirstAux]
  | cons x xs ih =>
      intro seen
      by_cases hx : x ∈ seen
      · simpa [dedupFirstAux, if_pos hx] using ih seen
      · rw [dedupFirstAux, if_neg hx]
        refine List.Nodup.cons ?_ (ih (x :: seen))
        intro hmem
        exact absurd (List.mem_cons_self x seen) (mem_dedupFirstAux xs (x :: seen) |>.mp hmem).2

theorem nodup_dedupFirst (l : List String) : (dedupFirst l).Nodup := nodup_dedupFirstAux l []

theorem dedupFirstAux_of_nodup :
    ∀ (l seen : List String), l.Nodup → (∀ a ∈ l, a ∉ seen) → dedupFirstAux l seen = l := by
  intro l
  induction l with
  | nil => intro seen _ _; rfl
  | cons x xs ih =>
      intro seen hnd hdisj
      have hx : x ∉ seen := hdisj x (List.mem_cons_self x xs)
      rw [dedupFirstAux, if_neg hx, ih (x :: seen) (List.Nodup.of_cons hnd)]
      intro a ha
      rcases List.nodup_cons.mp hnd with ⟨hxn, _⟩
      simp only [List.mem_cons]
      rintro (rfl | hs)
      · exact hxn ha
      · exact hdisj a (List.mem_cons_of_mem _ ha) hs

theorem dedupFirst_of_nodup {l : List String} (h : l.Nodup) : dedupFirst l = l :=
  dedupFirstAux_of_nodup l [] h (by simp)

theorem dedupFirst_eq_nil_iff {l : List String} : dedupFirst l = [] ↔ l = [] := by
  cases l with
  | nil => simp [dedupFirst, dedupFirstAux]
  | cons x xs => simp [dedupFirst, dedupFirstAux]

theorem insertSorted_ne_nil (x : String) (l : List String) : insertSorted x l ≠ [] := by
  cases l with
  | nil => simp [insertSorted]
  | cons y ys => by_cases h : x ≤ y <;> simp [insertSorted, h]

theorem sortStrings_eq_nil_iff {l : List String} : sortStrings l = [] ↔ l = [] := by
  cases l with
  | nil => simp [sortStrings]
  | cons x xs =>
      simp only [sortStrings, List.foldr_cons]
      exact ⟨fun h => absurd h (insertSorted_ne_nil x _), fun h => by cases h⟩

theorem count_eq_one_of_nodup_mem {a : String} {l : List String}
    (hn : l.Nodup) (hm : a ∈ l) : l.count a = 1 := by
  induction l with
  | nil => cases hm
  | cons x xs ih =>
      rcases List.nodup_cons.mp hn with ⟨hx, hxs⟩
      rcases List.mem_cons.mp hm with rfl | hm'
      · rw [List.count_cons_self]
        have : xs.count a = 0 := List.count_eq_zero.mpr hx
        omega
      · have hne : a ≠ x := fun h => hx (h ▸ hm')
        rw [List.count_cons_of_ne hne, ih hxs hm']

/-! ## Claim C1 -/

/-- C1: the claim states that at drain time a non-comment line whose only
numeric content matches the tail of an elected customer phone is excluded
from the product lines.  The code computes the `is_pure_client_phone` flag
but then appends the line to `product_lines` regardless (the unguarded
`product_lines.append(text)` at order_utils.py line 245 catches the
flagged case), contradicting the source's own comment at line 233.  On the
session below, `"mijoz 901234567"` elects `+998901234567` as the client
phone with digit tail `1234567`, and the pure echo line `"901234567"`
(whose digits end with that tail) still lands in the product lines. -/
theorem c1_phone_echo_line_kept_in_products :
    build_final_texts ["mijoz 901234567", "901234567", "pizza 45000"] ["+998901234567"]
      = (["+998901234567"], ["mijoz 901234567", "901234567", "pizza 45000"], [])
    ∧ clientDigitTails
        (choose_client_phones ["mijoz 901234567", "901234567", "pizza 45000"]
          ["+998901234567"]) = ["1234567"]
    ∧ endsWithSub (normalize_digits "901234567".data) "1234567".data = true
    ∧ "901234567" ∈ (build_final_texts ["mijoz 901234567", "901234567", "pizza 45000"]
        ["+998901234567"]).2.1 := by
  refine ⟨by decide, by decide, by decide, by decide⟩

/-! ## Claim C2 -/

/-- C2 counterexample: when every accumulated phone is marked `shop`, the
claim says the election returns the (empty) set of phones not marked shop;
the code instead falls back to returning all accumulated phones
(`return non_shop_phones or sorted(phones)`, order_utils.py line 183).
Here the only phone co-occurs with the shop keyword "магазин", no phone is
marked client and the non-shop set is empty, yet the phone is returned. -/
theorem c2_counterexample_all_shop_fallback :
    clientMarked ["наш магазин 901111111"] ["+998901111111"] = []
    ∧ nonShopMarked ["наш магазин 901111111"] ["+998901111111"] = []
    ∧ choose_client_phones ["наш магазин 901111111"] ["+998901111111"] = ["+998901111111"] := by
  refine ⟨by decide, by decide, by decide⟩

/-- C2 amended: phone election returns all client-marked phones (a shop
marking winning over a client marking for the same phone, which is how
`clientMarked`/`nonShopMarked` are computed); if none, it returns the
phones not marked shop (one element or many alike); **if that set is
empty, it falls back to all accumulated phones** — and in the two-phone
scenario (one phone on a shop-keyword line, one with no keyword
co-occurrence) only the non-shop phone is returned. -/
theorem c2_amended_phone_election (raw phones : List String) :
    choose_client_phones raw phones =
      (if phones = [] then []
       else if clientMarked raw phones ≠ [] then
         sortStrings (dedupFirst (clientMarked raw phones))
       else if nonShopMarked raw phones = [] then sortStrings (dedupFirst phones)
       else sortStrings (dedupFirst (nonShopMarked raw phones)))
    ∧ choose_client_phones ["наш магазин 901111111", "+998935557777"]
        ["+998901111111", "+998935557777"] = ["+998935557777"] := by
  constructor
  · by_cases hp : phones = []
    · simp [choose_client_phones, hp]
    · by_cases hc : clientMarked raw phones = []
      · by_cases hns : nonShopMarked raw phones = []
        · simp [choose_client_phones, hp, hc, hns, dedupFirst, dedupFirstAux, sortStrings]
        · have hne : sortStrings (dedupFirst (nonShopMarked raw phones)) ≠ [] := by
            intro h
            exact hns (dedupFirst_eq_nil_iff.mp (sortStrings_eq_nil_iff.mp h))
          by_cases hone : (sortStrings (dedupFirst (nonShopMarked raw phones))).length = 1 <;>
            simp [choose_client_phones, hp, hc, hns, hone, hne]
      · simp [choose_client_phones, hp, hc]
  · decide

/-! ## Claim C3 -/

/-- C3 counterexample: the claim states that a hundred/thousand/million
token terminates the current spoken telephone-digit run, so digits before
and after it are never concatenated.  In the code the token is skipped
*without* flushing (phones.py line 176 is a bare `continue`), so the
digits `1 2 3 4` before `yuz` and `5 6 7 8 9` after it are joined into the
single candidate `"123456789"`; under the claim the run would have been
split into `1234` (dropped, shorter than 5) and `56789`. -/
theorem c3_counterexample_scale_word_does_not_flush :
    extract_spoken_phone_candidates "bir ikki uch tort yuz besh olti yetti sakkiz toqqiz"
      = ["123456789"] := by decide

/-- C3 amended: a hundred/thousand/million token (`yuz`/`ming`/`million`/
`mln`) contributes no digits but does **not** terminate the current
telephone-digit run: the scanner state is left unchanged by such a token,
so removing it from a token stream leaves the extraction unchanged, i.e.
digits before and after it are concatenated. -/
theorem c3_amended_scale_words_skipped_without_flush
    (st : List Str × List Str) (w : Str) (ts1 ts2 : List Str)
    (h1 : digitWordsPhone.lookup (normalizeToken w).asString = none)
    (h2 : phoneScaleWords.contains (normalizeToken w).asString = true) :
    spokenStep st w = st
    ∧ (ts1 ++ w :: ts2).foldl spokenStep st = (ts1 ++ ts2).foldl spokenStep st := by
  have hstep : ∀ s : List Str × List Str, spokenStep s w = s := by
    intro s
    have hmem : List.asString (normalizeToken w) ∈ phoneScaleWords := by simpa using h2
    simp [spokenStep, h1, hmem]
  refine ⟨hstep st, ?_⟩
  rw [List.foldl_append, List.foldl_append, List.foldl_cons, hstep]

/-- C3 amended, concrete instance: one digit of state survives a literal
`yuz` untouched, and removing `yuz` from a token stream does not change
the fold. -/
theorem c3_scale_word_witness :
    digitWordsPhone.lookup (normalizeToken "yuz".data).asString = none
    ∧ phoneScaleWords.contains (normalizeToken "yuz".data).asString = true
    ∧ (spokenStep ([], [['1']]) "yuz".data = ([], [['1']])
       ∧ ([['2']] ++ "yuz".data :: [['3']]).foldl spokenStep ([], [['1']])
          = ([['2']] ++ [['3']]).foldl spokenStep ([], [['1']])) :=
  ⟨by decide, by decide,
    c3_amended_scale_words_skipped_without_flush ([], [['1']]) "yuz".data [['2']] [['3']]
      (by decide) (by decide)⟩

/-! ## Claim C10 -/

theorem lookup_mem_pairs :
    ∀ (l : List (String × String)) (k v : String), l.lookup k = some v → (k, v) ∈ l := by
  intro l
  induction l with
  | nil => intro k v h; cases h
  | cons p t ih =>
      intro k v h
      obtain ⟨a, b⟩ := p
      rw [List.lookup] at h
      by_cases hk : k = a
      · subst hk
        simp only [beq_self_eq_true] at h
        cases h
        exact List.mem_cons_self _ _
      · have : (k == a) = false := beq_false_of_ne hk
        rw [this] at h
        exact List.mem_cons_of_mem _ (ih k v h)

theorem digitWordsPhone_values_digit :
    digitWordsPhone.all (fun pr => pr.2.data.all Char.isDigit) = true := by decide

theorem postprocess_long {seq : Str} (h : 9 < seq.length) :
    postprocessPhoneDigits seq = some (lastN 9 seq) := by
  have hne : seq ≠ [] := by intro h0; subst h0; simp at h
  have hlen : (lastN 9 seq).length = 9 := by
    simp only [lastN, List.length_drop]; omega
  simp [postprocessPhoneDigits, hne, h, hlen]

theorem postprocess_short {seq : Str} (h : seq.length < 5) :
    postprocessPhoneDigits seq = none := by
  by_cases hne : seq = []
  · simp [postprocessPhoneDigits, hne]
  · have h9 : ¬ 9 < seq.length := by omega
    simp [postprocessPhoneDigits, hne, h9, h]

theorem postprocess_some_bounds {seq out : Str} (h : postprocessPhoneDigits seq = some out) :
    5 ≤ out.length ∧ out.length ≤ 9 ∧ ∀ c ∈ out, c ∈ seq := by
  by_cases hne : seq = []
  · simp [postprocessPhoneDigits, hne] at h
  · by_cases h9 : 9 < seq.length
    · rw [postprocess_long h9] at h
      cases h
      have hlen : (lastN 9 seq).length = 9 := by
        simp only [lastN, List.length_drop]; omega
      exact ⟨by omega, by omega, fun c hc => List.mem_of_mem_drop hc⟩
    · by_cases h5 : seq.length < 5
      · rw [postprocess_short h5] at h; cases h
      · simp only [postprocessPhoneDigits, if_neg hne, if_neg h9, if_neg h5] at h
        cases h
        exact ⟨by omega, by omega, fun c hc => hc⟩

theorem spokenFlush_inv {st : List Str × List Str}
    (h1 : ∀ s ∈ st.1, (∀ c ∈ s, c.isDigit = true) ∧ 5 ≤ s.length ∧ s.length ≤ 9)
    (h2 : ∀ d ∈ st.2, ∀ c ∈ d, c.isDigit = true) :
    (∀ s ∈ (spokenFlush st).1, (∀ c ∈ s, c.isDigit = true) ∧ 5 ≤ s.length ∧ s.length ≤ 9)
    ∧ (∀ d ∈ (spokenFlush st).2, ∀ c ∈ d, c.isDigit = true) := by
  obtain ⟨seqs, cur⟩ := st
  by_cases hcur : cur = []
  · rw [show spokenFlush (seqs, cur) = (seqs, cur) by simp [spokenFlush, hcur]]
    exact ⟨h1, h2⟩
  · rcases hpp : postprocessPhoneDigits cur.flatten with _ | p
    · simp only [spokenFlush, if_neg hcur, hpp]
      exact ⟨h1, by simp⟩
    · simp only [spokenFlush, if_neg hcur, hpp]
      refine ⟨?_, by simp⟩
      intro s hs
      rcases List.mem_append.mp hs with hs' | hs'
      · exact h1 s hs'
      · have hsp : s = p := by simpa using hs'
        subst hsp
        obtain ⟨hb1, hb2, hsub⟩ := postprocess_some_bounds hpp
        refine ⟨?_, hb1, hb2⟩
        intro c hc
        rcases List.mem_flatten.mp (hsub c hc) with ⟨d, hd, hcd⟩
        exact h2 d hd c hcd

theorem spokenStep_inv {st : List Str × List Str} {tok : Str}
    (h1 : ∀ s ∈ st.1, (∀ c ∈ s, c.isDigit = true) ∧ 5 ≤ s.length ∧ s.length ≤ 9)
    (h2 : ∀ d ∈ st.2, ∀ c ∈ d, c.isDigit = true) :
    (∀ s ∈ (spokenStep st tok).1, (∀ c ∈ s, c.isDigit = true) ∧ 5 ≤ s.length ∧ s.length ≤ 9)
    ∧ (∀ d ∈ (spokenStep st tok).2, ∀ c ∈ d, c.isDigit = true) := by
  rcases hlk : digitWordsPhone.lookup (normalizeToken tok).asString with _ | d
  · by_cases hsc : phoneScaleWords.contains (normalizeToken tok).asString = true
    · have hmem : List.asString (normalizeToken tok) ∈ phoneScaleWords := by simpa using hsc
      rw [show spokenStep st tok = st by simp [spokenStep, hlk, hmem]]
      exact ⟨h1, h2⟩
    · have hmem : List.asString (normalizeToken tok) ∉ phoneScaleWords := by
        intro hm
        exact hsc (by simpa using hm)
      rw [show spokenStep st tok = spokenFlush st by simp [spokenStep, hlk, hmem]]
      exact spokenFlush_inv h1 h2
  · have hd : d.data.all Char.isDigit = true := by
      have hmem := lookup_mem_pairs _ _ _ hlk
      have := List.all_eq_true.mp digitWordsPhone_values_digit _ hmem
      exact this
    simp only [spokenStep, hlk]
    refine ⟨h1, ?_⟩
    intro e he
    rcases List.mem_append.mp he with he' | he'
    · exact h2 e he'
    · have : e = d.data := by simpa using he'
      subst this
      exact fun c hc => List.all_eq_true.mp hd c hc

theorem spokenFold_inv (tokens : List Str) :
    ∀ (st : List Str × List Str),
      ((∀ s ∈ st.1, (∀ c ∈ s, c.isDigit = true) ∧ 5 ≤ s.length ∧ s.length ≤ 9)
        ∧ (∀ d ∈ st.2, ∀ c ∈ d, c.isDigit = true)) →
      ((∀ s ∈ (tokens.foldl spokenStep st).1,
          (∀ c ∈ s, c.isDigit = true) ∧ 5 ≤ s.length ∧ s.length ≤ 9)
        ∧ (∀ d ∈ (tokens.foldl spokenStep st).2, ∀ c ∈ d, c.isDigit = true)) := by
  induction tokens with
  | nil => intro st h; simpa using h
  | cons t ts ih =>
      intro st h
      rw [List.foldl_cons]
      exact ih (spokenStep st t) (spokenStep_inv h.1 h.2)

/-- C10: every candidate returned by spoken-digit phone extraction is a
digit string of length between 5 and 9; an accumulated run longer than 9
digits is truncated to its last 9 digits, and a run shorter than 5 digits
is discarded by `_postprocess_phone_digits`. -/
theorem c10_spoken_candidate_length_window (text c : String)
    (h : c ∈ extract_spoken_phone_candidates text) (seq : Str) :
    (c.data.all Char.isDigit = true ∧ 5 ≤ c.data.length ∧ c.data.length ≤ 9)
    ∧ (9 < seq.length → postprocessPhoneDigits seq = some (lastN 9 seq))
    ∧ (seq.length < 5 → postprocessPhoneDigits seq = none) := by
  refine ⟨?_, fun h9 => postprocess_long h9, fun h5 => postprocess_short h5⟩
  have hm : c ∈ (spokenFlush
      ((splitWs (cleanWordText text.data)).foldl spokenStep ([], []))).1.map List.asString := by
    simpa [extract_spoken_phone_candidates, mem_dedupFirst] using h
  rcases List.mem_map.mp hm with ⟨s, hs, rfl⟩
  have hfold := spokenFold_inv (splitWs (cleanWordText text.data)) ([], []) (by simp)
  have hinv := spokenFlush_inv hfold.1 hfold.2
  obtain ⟨hdig, hlo, hhi⟩ := hinv.1 s hs
  have hdata : (List.asString s).data = s := rfl
  rw [hdata]
  exact ⟨List.all_eq_true.mpr hdig, hlo, hhi⟩

/-- C10 instance: the five-word input yields the candidate `"12345"`,
inside the window. -/
theorem c10_witness :
    "12345" ∈ extract_spoken_phone_candidates "bir ikki uch tort besh"
    ∧ (("12345".data.all Char.isDigit = true
        ∧ 5 ≤ "12345".data.length ∧ "12345".data.length ≤ 9)
      ∧ (9 < (['1'] : Str).length →
          postprocessPhoneDigits ['1'] = some (lastN 9 ['1']))
      ∧ ((['1'] : Str).length < 5 → postprocessPhoneDigits ['1'] = none)) :=
  ⟨by decide,
    c10_spoken_candidate_length_window "bir ikki uch tort besh" "12345" (by decide) ['1']⟩

/-! ## Claim C5 -/

theorem looks_like_phone_of_shape {d : Str} (h9 : 9 ≤ d.length) (h12 : d.length ≤ 12)
    (hh : d.take 3 = ['9', '9', '8'] ∨ d.head? = some '9' ∨ d.head? = some '8') :
    looks_like_phone d = true := by
  have hne : d ≠ [] := by
    intro h0
    subst h0
    simp at h9
  have hhead : d.head? = some '9' ∨ d.head? = some '8' := by
    rcases hh with h | h | h
    · left
      cases d with
      | nil => simp at h9
      | cons a t =>
          have : a = '9' := by
            have := congrArg List.head? h
            simpa using this
          simp [this]
    · exact Or.inl h
    · exact Or.inr h
  simp only [looks_like_phone, if_neg hne]
  split_ifs with hc1 hc2
  · rfl
  · rfl
  · exact absurd ⟨by omega, hhead⟩ hc2

/-- C5: amount extraction returns `300000` for "uch yuz ming" and `250000`
for "ikki yuz ellik ming"; a digit run whose digit content is phone-shaped
(9–12 digits, starting with the country code `998` or a mobile-prefix
digit `9`/`8`) never produces an amount candidate, so a bare 9-digit
phone-shaped run in the same message is not selected as the amount
(`983373630, 277 000 so'm` yields `277000`). -/
theorem c5_amount_extraction (cs : Str) (s e : Nat) (run : Str)
    (h1 : (s, e, run) ∈ pyDigitRuns cs)
    (h9 : 9 ≤ (run.filter Char.isDigit).length)
    (h12 : (run.filter Char.isDigit).length ≤ 12)
    (hh : (run.filter Char.isDigit).take 3 = ['9', '9', '8']
      ∨ (run.filter Char.isDigit).head? = some '9'
      ∨ (run.filter Char.isDigit).head? = some '8') :
    extract_amount_from_text "uch yuz ming" = some 300000
    ∧ extract_amount_from_text "ikki yuz ellik ming" = some 250000
    ∧ extract_amount_from_text "983373630, 277 000 so'm" = some 277000
    ∧ runCandidate cs (s, e, run) = none := by
  refine ⟨by decide, by decide, by decide, ?_⟩
  have hlp := looks_like_phone_of_shape h9 h12 hh
  have hne : run.filter Char.isDigit ≠ [] := by
    intro h0
    rw [h0] at h9
    simp at h9
  simp [runCandidate, hne, hlp]

/-- C5 instance: the run `983373630` of `"983373630, 277 000 so'm"` is
9 digits starting with `9` and produces no candidate. -/
theorem c5_witness :
    ((0, 9, "983373630".data) ∈ pyDigitRuns "983373630, 277 000 so'm".data
      ∧ 9 ≤ ("983373630".data.filter Char.isDigit).length
      ∧ ("983373630".data.filter Char.isDigit).length ≤ 12
      ∧ ("983373630".data.filter Char.isDigit).head? = some '9')
    ∧ runCandidate "983373630, 277 000 so'm".data (0, 9, "983373630".data) = none :=
  ⟨⟨by decide, by decide, by decide, by decide⟩,
    (c5_amount_extraction "983373630, 277 000 so'm".data 0 9 "983373630".data
      (by decide) (by decide) (by decide) (Or.inr (Or.inl (by decide)))).2.2.2⟩

/-! ## Claim C6 -/

theorem findMatchesF_nil : ∀ fuel, findMatchesF fuel [] = [] := by
  intro fuel
  cases fuel <;> rfl

/-- C6: every digit run the phone regex finds whose digit content is
exactly 9 digits (not prefixed by the country code) is normalized to
`+998` followed by those 9 digits, and that phone occurs exactly once in
the extraction result. -/
theorem c6_nine_digit_run_normalized (text m : String)
    (h1 : m ∈ pyFindMatches text.data)
    (h2 : (m.data.filter Char.isDigit).length = 9)
    (h3 : (m.data.filter Char.isDigit).take 3 ≠ ['9', '9', '8']) :
    normalize_phone m = some ("+998" ++ (m.data.filter Char.isDigit).asString)
    ∧ (extract_phones text).count ("+998" ++ (m.data.filter Char.isDigit).asString) = 1 := by
  have hd9 : ¬ (m.data.filter Char.isDigit).length < 9 := by omega
  have hd12 : ¬ ((m.data.filter Char.isDigit).take 3 = ['9', '9', '8']
      ∧ (m.data.filter Char.isDigit).length = 12) := by
    rintro ⟨-, h⟩
    omega
  have hnorm : normalize_phone m = some ("+998" ++ (m.data.filter Char.isDigit).asString) := by
    simp [normalize_phone, hd9, hd12, h2]
  refine ⟨hnorm, ?_⟩
  have hne : text.data ≠ [] := by
    intro h0
    rw [h0, pyFindMatches, findMatchesF_nil] at h1
    cases h1
  have hp : ("+998" ++ (m.data.filter Char.isDigit).asString)
      ∈ (pyFindMatches text.data).filterMap normalize_phone :=
    List.mem_filterMap.mpr ⟨m, h1, hnorm⟩
  rw [extract_phones, if_neg hne]
  exact count_eq_one_of_nodup_mem (nodup_dedupFirst _) (mem_dedupFirst.mpr hp)

/-- C6 instance: `"tel 901234567"` contains the 9-digit run `901234567`
and extraction returns exactly `+998901234567` for it. -/
theorem c6_witness :
    ("901234567" ∈ pyFindMatches "tel 901234567".data
      ∧ ("901234567".data.filter Char.isDigit).length = 9
      ∧ ("901234567".data.filter Char.isDigit).take 3 ≠ ['9', '9', '8'])
    ∧ normalize_phone "901234567"
        = some ("+998" ++ ("901234567".data.filter Char.isDigit).asString)
    ∧ (extract_phones "tel 901234567").count
        ("+998" ++ ("901234567".data.filter Char.isDigit).asString) = 1 :=
  ⟨⟨by decide, by decide, by decide⟩,
    (c6_nine_digit_run_normalized "tel 901234567" "901234567"
      (by decide) (by decide) (by decide)).1,
    (c6_nine_digit_run_normalized "tel 901234567" "901234567"
      (by decide) (by decide) (by decide)).2⟩

/-! ## Claims C7 and C8 — session store -/

theorem lookup_replaceAll (k : SessionKey) (s : OrderSession) :
    ∀ st : SessionStore,
      (st.map fun e => if e.1 = k then (k, s) else e).lookup k
        = if st.any (·.1 = k) then some s else none := by
  intro st
  induction st with
  | nil => simp
  | cons p t ih =>
      obtain ⟨a, b⟩ := p
      by_cases hak : a = k
      · subst hak
        simp only [List.map_cons]
        simp [List.lookup, ih]
      · simp only [List.map_cons]
        rw [show (if (a, b).1 = k then (k, s) else (a, b)) = (a, b) from if_neg hak]
        have hbeq : (k == a) = false := by
          apply beq_false_of_ne
          exact fun h => hak h.symm
        simp only [List.lookup, hbeq, List.any_cons, ih]
        by_cases hany : (t.any fun x => decide (x.1 = k)) = true
        · simp [hany, hak]
        · simp [hany, hak]

theorem lookup_none_of_any_false (k : SessionKey) :
    ∀ st : SessionStore, st.any (·.1 = k) = false → st.lookup k = none := by
  intro st
  induction st with
  | nil => intro _; rfl
  | cons p t ih =>
      obtain ⟨a, b⟩ := p
      intro h
      simp only [List.any_cons, Bool.or_eq_false_iff, decide_eq_false_iff_not] at h
      have hbeq : (k == a) = false := by
        apply beq_false_of_ne
        exact fun hk => h.1 hk.symm
      simp only [List.lookup, hbeq]
      exact ih (by simpa using h.2)

theorem lookup_append_right (k : SessionKey) (l2 : SessionStore) :
    ∀ st : SessionStore, st.lookup k = none → (st ++ l2).lookup k = l2.lookup k := by
  intro st
  induction st with
  | nil => intro _; rfl
  | cons p t ih =>
      obtain ⟨a, b⟩ := p
      intro h
      rcases hbeq : (k == a) with _ | _
      · simp only [List.cons_append, List.lookup, hbeq]
        apply ih
        simpa [List.lookup, hbeq] using h
      · simp [List.lookup, hbeq] at h

theorem storeGet_storeSet (st : SessionStore) (k : SessionKey) (s : OrderSession) :
    storeGet (storeSet st k s) k = some s := by
  rcases hany : st.any (·.1 = k) with _ | _
  · simp only [storeGet, storeSet, hany, Bool.false_eq_true, if_false]
    rw [lookup_append_right k _ st (lookup_none_of_any_false k st hany)]
    simp [List.lookup]
  · simp only [storeGet, storeSet, hany, if_true]
    rw [lookup_replaceAll]
    simp [hany]

/-- C7: a message arriving for a key whose existing, non-expired session
is completed leaves the session entirely unchanged (the handler returns
before any mutation) and schedules no finalize. -/
theorem c7_completed_session_ignored (maxDiff : Int) (eg : Option Int) (now : Int)
    (m : PyMessage) (v : Verdict) (st : SessionStore) (s : OrderSession)
    (h1 : storeGet st (m.chat_id, m.user_id) = some s)
    (h2 : s.is_completed = true)
    (h3 : ¬ now - s.updated_at > maxDiff) :
    processGroupMessage maxDiff eg now st m v
      = (storeSet st (m.chat_id, m.user_id) s, false)
    ∧ storeGet (processGroupMessage maxDiff eg now st m v).1 (m.chat_id, m.user_id) = some s := by
  have hget : get_or_create_session maxDiff now st m = (st, s) := by
    simp [get_or_create_session, h1, h3]
  have hstep : handleGroupStep eg now m v s = (s, false) := by
    simp [handleGroupStep, h2]
  constructor
  · simp [processGroupMessage, hget, hstep]
  · simp [processGroupMessage, hget, hstep, storeGet_storeSet]

/-- C7 instance: a completed fresh session absorbs a further message with
no state change and no emitted order. -/
theorem c7_witness :
    storeGet [((5, 7), (⟨7, 5, ["eski"], ["+998901234567"], none, true, 0, 0⟩ : OrderSession))]
        (5, 7) = some ⟨7, 5, ["eski"], ["+998901234567"], none, true, 0, 0⟩
    ∧ (⟨7, 5, ["eski"], ["+998901234567"], none, true, 0, 0⟩ : OrderSession).is_completed = true
    ∧ ¬ (10 : Int) - 0 > 120
    ∧ processGroupMessage 120 none 10
        [((5, 7), ⟨7, 5, ["eski"], ["+998901234567"], none, true, 0, 0⟩)]
        ⟨"yana xabar", false, 0, 0, 7, 5⟩ ⟨true, "PRODUCT", false⟩
      = ([((5, 7), ⟨7, 5, ["eski"], ["+998901234567"], none, true, 0, 0⟩)], false) := by
  refine ⟨by decide, by decide, by decide, ?_⟩
  have h := (c7_completed_session_ignored 120 none 10 ⟨"yana xabar", false, 0, 0, 7, 5⟩
    ⟨true, "PRODUCT", false⟩
    [((5, 7), ⟨7, 5, ["eski"], ["+998901234567"], none, true, 0, 0⟩)]
    ⟨7, 5, ["eski"], ["+998901234567"], none, true, 0, 0⟩
    (by decide) (by decide) (by decide)).1
  rw [h]
  decide

/-- C8: a session idle strictly longer than the staleness threshold is
replaced, on the next message for its key, by a fresh session with empty
history, empty phone set, no location and `is_completed = false`; nothing
from the expired session leaks into it. -/
theorem c8_stale_session_replaced (maxDiff now : Int) (m : PyMessage) (st : SessionStore)
    (s : OrderSession)
    (h1 : storeGet st (m.chat_id, m.user_id) = some s)
    (h2 : now - s.updated_at > maxDiff) :
    get_or_create_session maxDiff now st m
      = (storeSet st (m.chat_id, m.user_id) (freshSession m.user_id m.chat_id now),
         freshSession m.user_id m.chat_id now)
    ∧ (freshSession m.user_id m.chat_id now).raw_messages = []
    ∧ (freshSession m.user_id m.chat_id now).phones = []
    ∧ (freshSession m.user_id m.chat_id now).location = none
    ∧ (freshSession m.user_id m.chat_id now).is_completed = false
    ∧ ∀ p ∈ s.phones, p ∉ (freshSession m.user_id m.chat_id now).phones := by
  refine ⟨?_, rfl, rfl, rfl, rfl, ?_⟩
  · simp [get_or_create_session, h1, h2]
  · intro p _
    simp [freshSession]

/-! ## Claim C4 -/

theorem mergedSession_is_completed (m : PyMessage) (s : OrderSession) :
    (mergedSession m s).is_completed = s.is_completed := by
  simp only [mergedSession]
  split <;> split <;> rfl

/-- absorption of the rule-based role fallback: in a disjunction that
already contains the product-shape test, the post-fallback role equalling
`PRODUCT` is interchangeable with the classifier's role equalling
`PRODUCT`. -/
theorem fallbackRole_product_iff (r t : String) :
    (fallbackRole r t = "PRODUCT" ∨ hasProductCandidate t = true)
      ↔ (r = "PRODUCT" ∨ hasProductCandidate t = true) := by
  by_cases hu : r = "UNKNOWN"
  · subst hu
    by_cases hpc : hasProductCandidate t = true
    · by_cases hck : commentKeywords.any (fun kw => containsSub (pyLower t.data) kw.data) = true <;>
        simp [fallbackRole, hpc, hck]
    · by_cases hck : commentKeywords.any (fun kw => containsSub (pyLower t.data) kw.data) = true <;>
        simp [fallbackRole, hpc, hck]
  · simp [fallbackRole, hu]

/-- C4 counterexample: with an error group configured, a message whose
text is `"45000"` (digits, so trigger (e) holds) arriving on a READY,
non-completed session is diverted to the non-order path when the
classifier verdict says it is not order-related — no finalize is
scheduled although the claim's condition (e) holds. -/
theorem c4_counterexample_error_divert :
    errorDiverted (some 1) (⟨"45000", false, 0, 0, 7, 5⟩ : PyMessage)
        (⟨false, "UNKNOWN", false⟩ : Verdict) = true
    ∧ hasProductCandidate "45000" = true
    ∧ is_session_ready (mergedSession ⟨"45000", false, 0, 0, 7, 5⟩
        (⟨7, 5, ["tel 901234567"], ["+998901234567"], some (PyLoc.text "joy"), false, 0, 0⟩ :
          OrderSession)) = true
    ∧ (⟨7, 5, ["tel 901234567"], ["+998901234567"], some (PyLoc.text "joy"), false, 0, 0⟩ :
        OrderSession).is_completed = false
    ∧ (handleGroupStep (some 1) 10 ⟨"45000", false, 0, 0, 7, 5⟩ ⟨false, "UNKNOWN", false⟩
        ⟨7, 5, ["tel 901234567"], ["+998901234567"], some (PyLoc.text "joy"), false, 0, 0⟩).2
      = false := by
  refine ⟨by decide, by decide, by decide, by decide, by decide⟩

/-- C4 amended: for a message processed against a non-completed session
that is READY after the message's merges, if the message is **not**
diverted to the non-order error path then finalization is scheduled iff
(a) the message just supplied the first location, (b) the classifier
assigned role `PRODUCT`, (c) the classifier flagged address keywords,
(d) the message supplied the first phone, or (e) the text is
product-shaped by the rule-based fallback; a diverted message never
schedules finalization; and the step never completes the session by
itself. -/
theorem c4_amended_finalize_trigger (eg : Option Int) (now : Int) (m : PyMessage) (v : Verdict)
    (s : OrderSession)
    (hc : s.is_completed = false)
    (hready : is_session_ready (mergedSession m s) = true) :
    (errorDiverted eg m v = true → handleGroupStep eg now m v s = (mergedSession m s, false))
    ∧ (errorDiverted eg m v = false →
        (handleGroupStep eg now m v s).1 = { mergedSession m s with updated_at := now }
        ∧ ((handleGroupStep eg now m v s).2 = true ↔
            (justGotLocationFlag m s = true ∨ v.role = "PRODUCT"
              ∨ v.has_address_keywords = true ∨ phonesNewFlag m s = true
              ∨ hasProductCandidate m.text = true)))
    ∧ (handleGroupStep eg now m v s).1.is_completed = false := by
  have hr : (!(mergedSession m s).phones.isEmpty && (mergedSession m s).location.isSome)
      = true := by
    simpa [is_session_ready] using hready
  refine ⟨?_, ?_, ?_⟩
  · intro herr
    simp [handleGroupStep, hc, herr]
  · intro herr
    have hstep : handleGroupStep eg now m v s
        = ({ mergedSession m s with updated_at := now },
            justGotLocationFlag m s || decide (fallbackRole v.role m.text = "PRODUCT")
              || v.has_address_keywords || phonesNewFlag m s || hasProductCandidate m.text) := by
      simp [handleGroupStep, hc, herr, mergedSession_is_completed, is_session_ready, hr]
    rw [hstep]
    refine ⟨rfl, ?_⟩
    simp only [Bool.or_eq_true, decide_eq_true_eq]
    have habs := fallbackRole_product_iff v.role m.text
    tauto
  · by_cases herr : errorDiverted eg m v = true
    · simp [handleGroupStep, hc, herr, mergedSession_is_completed]
    · have herr' : errorDiverted eg m v = false := by simpa using herr
      simp [handleGroupStep, hc, herr', mergedSession_is_completed, is_session_ready, hr]

/-- C4 amended, concrete instance: an undiverted `PRODUCT`-classified
message on a READY session schedules finalization. -/
theorem c4_amended_witness :
    ((⟨7, 5, ["tel 901234567"], ["+998901234567"], some (PyLoc.text "joy"), false, 0, 0⟩ :
        OrderSession).is_completed = false
      ∧ is_session_ready (mergedSession ⟨"pizza 45000", false, 0, 0, 7, 5⟩
          ⟨7, 5, ["tel 901234567"], ["+998901234567"], some (PyLoc.text "joy"), false, 0, 0⟩)
        = true
      ∧ errorDiverted none ⟨"pizza 45000", false, 0, 0, 7, 5⟩ ⟨true, "PRODUCT", false⟩ = false)
    ∧ (handleGroupStep none 10 ⟨"pizza 45000", false, 0, 0, 7, 5⟩ ⟨true, "PRODUCT", false⟩
        ⟨7, 5, ["tel 901234567"], ["+998901234567"], some (PyLoc.text "joy"), false, 0, 0⟩).2
      = true := by
  refine ⟨⟨by decide, by decide, by decide⟩, ?_⟩
  have h := ((c4_amended_finalize_trigger none 10 ⟨"pizza 45000", false, 0, 0, 7, 5⟩
    ⟨true, "PRODUCT", false⟩
    ⟨7, 5, ["tel 901234567"], ["+998901234567"], some (PyLoc.text "joy"), false, 0, 0⟩
    (by decide) (by decide)).2.1 (by decide)).2
  exact h.mpr (Or.inr (Or.inl (by decide)))

/-- C8 instance: a session stale by more than the threshold is replaced by
the fresh empty session. -/
theorem c8_witness :
    storeGet [((5, 7),
        (⟨7, 5, ["eski"], ["+998901234567"], some (PyLoc.text "joy"), false, 0, 0⟩ :
          OrderSession))] (5, 7)
      = some ⟨7, 5, ["eski"], ["+998901234567"], some (PyLoc.text "joy"), false, 0, 0⟩
    ∧ (1000 : Int) - 0 > 120
    ∧ (get_or_create_session 120 1000
        [((5, 7), ⟨7, 5, ["eski"], ["+998901234567"], some (PyLoc.text "joy"), false, 0, 0⟩)]
        ⟨"yangi", false, 0, 0, 7, 5⟩).2 = freshSession 7 5 1000
    ∧ (freshSession 7 5 1000).phones = [] := by
  refine ⟨by decide, by decide, ?_, by decide⟩
  have h := (c8_stale_session_replaced 120 1000 ⟨"yangi", false, 0, 0, 7, 5⟩
    [((5, 7), ⟨7, 5, ["eski"], ["+998901234567"], some (PyLoc.text "joy"), false, 0, 0⟩)]
    ⟨7, 5, ["eski"], ["+998901234567"], some (PyLoc.text "joy"), false, 0, 0⟩
    (by decide) (by decide)).1
  rw [h]

/-! ## Claim C9 -/
theorem length_dropWhile_le (p : Char → Bool) (l : Str) : (l.dropWhile p).length ≤ l.length := by
  induction l with
  | nil => simp
  | cons c t ih =>
      by_cases h : p c <;> simp [List.dropWhile_cons, h]
      omega

theorem sepChar_eq_false_of_digit {c : Char} (h : c.isDigit = true) : sepChar c = false := by
  simp only [sepChar]
  apply decide_eq_false
  rintro (rfl | rfl | rfl | rfl) <;> exact absurd h (by decide)

theorem pairsAuxF_digits :
    ∀ (ds : Str) (fuel : Nat) (rest : Str),
      (∀ c ∈ ds, c.isDigit = true) → ds.length ≤ fuel →
      (rest = [] ∨ ∃ c cs, rest = c :: cs ∧ sepChar c = false ∧ c.isDigit = false) →
      pairsAuxF fuel (ds ++ rest) = (ds, rest, ds.length) := by
  intro ds
  induction ds with
  | nil =>
      intro fuel rest _ _ hrest
      cases fuel with
      | zero => rfl
      | succ f =>
          rcases hrest with rfl | ⟨c, cs, rfl, hsep, hdig⟩
          · rfl
          · simp [pairsAuxF, List.takeWhile_cons, List.dropWhile_cons, hsep, hdig]
  | cons d ds' ih =>
      intro fuel rest hd hlen hrest
      cases fuel with
      | zero => simp at hlen
      | succ f =>
          have hdd : d.isDigit = true := hd d (List.mem_cons_self _ _)
          have hds : sepChar d = false := sepChar_eq_false_of_digit hdd
          have hlen' : ds'.length ≤ f := by
            simp only [List.length_cons] at hlen
            omega
          have hrec := ih f rest (fun c hc => hd c (List.mem_cons_of_mem _ hc)) hlen' hrest
          simp only [List.cons_append, pairsAuxF, List.takeWhile_cons, hds,
            List.dropWhile_cons, hdd, if_true, Bool.false_eq_true, if_false, hrec]
          simp

theorem pairsAuxF_rest_le :
    ∀ (fuel : Nat) (cs : Str), (pairsAuxF fuel cs).2.1.length ≤ cs.length := by
  intro fuel
  induction fuel with
  | zero => intro cs; simp [pairsAuxF]
  | succ f ih =>
      intro cs
      rcases hdw : cs.dropWhile sepChar with _ | ⟨d, rest⟩
      · simp [pairsAuxF, hdw]
      · have hsplit : (cs.takeWhile sepChar).length + (d :: rest).length = cs.length := by
          rw [← List.length_append, ← hdw, List.takeWhile_append_dropWhile]
        by_cases hdd : d.isDigit = true
        · have := ih rest
          simp only [pairsAuxF, hdw, hdd, if_true]
          simp only [List.length_cons] at hsplit
          omega
        · have hdd' : d.isDigit = false := by simpa using hdd
          simp [pairsAuxF, hdw, hdd']

theorem tryCore_some_lt {cs mm r : Str} (h : tryCore cs = some (mm, r)) :
    r.length < cs.length := by
  cases cs with
  | nil => cases h
  | cons d rest =>
      by_cases hdd : d.isDigit = true
      · by_cases h7 : 7 ≤ (pairsAuxF rest.length rest).2.2
        · simp only [tryCore, hdd, if_true, h7] at h
          cases h
          have := pairsAuxF_rest_le rest.length rest
          simp only [List.length_cons]
          omega
        · simp [tryCore, hdd, h7] at h
      · simp [tryCore, hdd] at h

theorem tryMatch_some_lt {cs mm r : Str} (h : tryMatch cs = some (mm, r)) :
    r.length < cs.length := by
  unfold tryMatch at h
  split at h
  · rename_i rest
    rcases htc : tryCore rest with _ | ⟨m2, r2⟩ <;> rw [htc] at h
    · cases h
    · cases h
      have := tryCore_some_lt htc
      simp only [List.length_cons]
      omega
  · exact tryCore_some_lt h

theorem tryCore_digits {ds rest : Str}
    (hne : ds ≠ []) (hd : ∀ c ∈ ds, c.isDigit = true) (hlen : 8 ≤ ds.length)
    (hrest : rest = [] ∨ ∃ c cs, rest = c :: cs ∧ sepChar c = false ∧ c.isDigit = false) :
    tryCore (ds ++ rest) = some (ds, rest) := by
  cases ds with
  | nil => exact absurd rfl hne
  | cons d ds' =>
      have hdd : d.isDigit = true := hd d (List.mem_cons_self _ _)
      have hrec := pairsAuxF_digits ds' (ds' ++ rest).length rest
        (fun c hc => hd c (List.mem_cons_of_mem _ hc))
        (by simp) hrest
      have h7 : 7 ≤ ds'.length := by
        simp only [List.length_cons] at hlen
        omega
      simp only [List.cons_append, tryCore, hdd, if_true, hrec, h7]

theorem tryMatch_plus_digits {ds rest : Str}
    (hne : ds ≠ []) (hd : ∀ c ∈ ds, c.isDigit = true) (hlen : 8 ≤ ds.length)
    (hrest : rest = [] ∨ ∃ c cs, rest = c :: cs ∧ sepChar c = false ∧ c.isDigit = false) :
    tryMatch ('+' :: (ds ++ rest)) = some ('+' :: ds, rest) := by
  rw [show tryMatch ('+' :: (ds ++ rest))
      = (match tryCore (ds ++ rest) with
         | some (m, rest') => some ('+' :: m, rest')
         | none => none) from rfl]
  rw [tryCore_digits hne hd hlen hrest]

theorem tryMatch_newline (cs : Str) : tryMatch ('\n' :: cs) = none := rfl

theorem findMatchesF_skip {c : Char} {cs : Str} {fuel : Nat}
    (h : tryMatch (c :: cs) = none) :
    findMatchesF (fuel + 1) (c :: cs) = findMatchesF fuel cs := by
  simp [findMatchesF, h]

theorem findMatchesF_take {c : Char} {cs mm rest : Str} {fuel : Nat}
    (h : tryMatch (c :: cs) = some (mm, rest)) :
    findMatchesF (fuel + 1) (c :: cs) = mm.asString :: findMatchesF fuel rest := by
  simp [findMatchesF, h]

theorem findMatchesF_render :
    ∀ (ps : List String), (∀ p ∈ ps, phoneShape 8 p) →
      ∀ fuel, (renderPhones ps).data.length ≤ fuel →
        findMatchesF fuel (renderPhones ps).data = ps := by
  intro ps
  induction ps with
  | nil =>
      intro _ fuel _
      rw [show (renderPhones []).data = ([] : Str) from rfl]
      exact findMatchesF_nil fuel
  | cons p ps' ih =>
      intro hshape fuel hfuel
      obtain ⟨ds, hdata, hdig, hlen⟩ := hshape p (List.mem_cons_self _ _)
      have hne : ds ≠ [] := by
        intro h0
        rw [h0] at hlen
        simp at hlen
      cases ps' with
      | nil =>
          rw [show renderPhones [p] = p from rfl] at hfuel ⊢
          rw [hdata] at hfuel ⊢
          obtain ⟨f, rfl⟩ : ∃ f, fuel = f + 1 := by
            refine ⟨fuel - 1, ?_⟩
            simp only [List.length_cons] at hfuel
            omega
          have htm : tryMatch ('+' :: (ds ++ [])) = some ('+' :: ds, []) :=
            tryMatch_plus_digits hne hdig (by omega) (Or.inl rfl)
          rw [List.append_nil] at htm
          rw [findMatchesF_take htm, findMatchesF_nil f]
          have : ('+' :: ds).asString = p := by
            rw [← hdata]
            rfl
          rw [this]
      | cons q ps'' =>
          have hrender : (renderPhones (p :: q :: ps'')).data
              = '+' :: (ds ++ '\n' :: (renderPhones (q :: ps'')).data) := by
            rw [show renderPhones (p :: q :: ps'') = p ++ "\n" ++ renderPhones (q :: ps'')
              from rfl]
            rw [String.data_append, String.data_append, hdata]
            simp
          rw [hrender] at hfuel ⊢
          simp only [List.length_cons, List.length_append] at hfuel
          obtain ⟨f, rfl⟩ : ∃ f, fuel = f + 1 := ⟨fuel - 1, by omega⟩
          have htm := tryMatch_plus_digits hne hdig (by omega)
            (Or.inr ⟨'\n', (renderPhones (q :: ps'')).data, rfl, by decide, by decide⟩)
          rw [findMatchesF_take htm]
          have hhead : ('+' :: ds).asString = p := by
            rw [← hdata]
            rfl
          rw [hhead]
          obtain ⟨f2, rfl⟩ : ∃ f2, f = f2 + 1 := ⟨f - 1, by omega⟩
          rw [findMatchesF_skip (tryMatch_newline _)]
          have htail := ih (fun r hr => hshape r (List.mem_cons_of_mem _ hr)) f2 (by omega)
          rw [htail]

theorem extract_phones_shape {t p : String} (h : p ∈ extract_phones t) : phoneShape 10 p := by
  by_cases hne : t.data = []
  · rw [extract_phones, if_pos hne] at h
    cases h
  · rw [extract_phones, if_neg hne] at h
    rcases List.mem_filterMap.mp (mem_dedupFirst.mp h) with ⟨mm, _, hnorm⟩
    have hdig : ∀ c ∈ mm.data.filter Char.isDigit, c.isDigit = true := by
      intro c hc
      exact (List.mem_filter.mp hc).2
    simp only [normalize_phone] at hnorm
    by_cases h1 : (mm.data.filter Char.isDigit).length < 9
    · rw [if_pos h1] at hnorm
      cases hnorm
    rw [if_neg h1] at hnorm
    by_cases h2 : (mm.data.filter Char.isDigit).take 3 = ['9', '9', '8']
        ∧ (mm.data.filter Char.isDigit).length = 12
    · rw [if_pos h2] at hnorm
      obtain ⟨-, h12⟩ := h2
      cases hnorm
      refine ⟨mm.data.filter Char.isDigit, ?_, hdig, ?_⟩
      · rw [String.data_append]
        rfl
      · omega
    rw [if_neg h2] at hnorm
    by_cases h3 : (mm.data.filter Char.isDigit).length = 9
    · rw [if_pos h3] at hnorm
      cases hnorm
      refine ⟨'9' :: '9' :: '8' :: mm.data.filter Char.isDigit, ?_, ?_, ?_⟩
      · rw [String.data_append]
        rfl
      · intro c hc
        rcases List.mem_cons.mp hc with rfl | hc
        · decide
        rcases List.mem_cons.mp hc with rfl | hc
        · decide
        rcases List.mem_cons.mp hc with rfl | hc
        · decide
        exact hdig c hc
      · simp only [List.length_cons]
        omega
    · rw [if_neg h3] at hnorm
      cases hnorm
      refine ⟨mm.data.filter Char.isDigit, ?_, hdig, ?_⟩
      · rw [String.data_append]
        rfl
      · omega

theorem normalize_phone_fix {p : String} {ds : Str} (hdata : p.data = '+' :: ds)
    (hd : ∀ c ∈ ds, c.isDigit = true) (hlen : 10 ≤ ds.length) :
    normalize_phone p = some p := by
  have hfilter : p.data.filter Char.isDigit = ds := by
    rw [hdata, List.filter_cons]
    have : ('+'.isDigit = true) = False := by simp
    simp only [show ('+'.isDigit) = false from by decide, Bool.false_eq_true, if_false]
    exact List.filter_eq_self.mpr hd
  have hp : ("+" ++ ds.asString) = p := by
    apply String.ext
    rw [String.data_append, hdata]
    rfl
  rw [normalize_phone, hfilter]
  split_ifs with h1 h2 h3
  · exact absurd h1 (by omega)
  · rw [hp]
  · exact absurd h3 (by omega)
  · rw [hp]

theorem filterMap_normalize_fix :
    ∀ ps : List String, (∀ p ∈ ps, phoneShape 10 p) →
      ps.filterMap normalize_phone = ps := by
  intro ps
  induction ps with
  | nil => intro _; rfl
  | cons p ps' ih =>
      intro hshape
      obtain ⟨ds, hdata, hdig, hlen⟩ := hshape p (List.mem_cons_self _ _)
      rw [List.filterMap_cons, normalize_phone_fix hdata hdig hlen,
        ih fun r hr => hshape r (List.mem_cons_of_mem _ hr)]

theorem extract_phones_nodup (t : String) : (extract_phones t).Nodup := by
  rw [extract_phones]
  split
  · exact List.nodup_nil
  · exact nodup_dedupFirst _

theorem renderPhones_data_ne_nil {p : String} {ps : List String} (hs : phoneShape 10 p) :
    (renderPhones (p :: ps)).data ≠ [] := by
  obtain ⟨ds, hdata, -, -⟩ := hs
  cases ps with
  | nil =>
      rw [show renderPhones [p] = p from rfl, hdata]
      simp
  | cons q ps' =>
      rw [show renderPhones (p :: q :: ps') = p ++ "\n" ++ renderPhones (q :: ps') from rfl]
      rw [String.data_append, String.data_append, hdata]
      simp

/-- C9: rendering the extracted phone set back to text (one phone per
line) and extracting again reproduces the same list: extraction is
idempotent on its own normalized output. -/
theorem c9_extract_phones_idempotent (t : String) :
    extract_phones (renderPhones (extract_phones t)) = extract_phones t := by
  have hshape : ∀ p ∈ extract_phones t, phoneShape 10 p := fun p hp => extract_phones_shape hp
  rcases hps : extract_phones t with _ | ⟨p, ps'⟩
  · rw [show renderPhones [] = "" from rfl]
    rw [extract_phones, if_pos rfl]
  · rw [hps] at hshape
    have hne := @renderPhones_data_ne_nil p ps' (hshape p (List.mem_cons_self _ _))
    rw [extract_phones, if_neg hne]
    have hshape8 : ∀ r ∈ p :: ps', phoneShape 8 r := by
      intro r hr
      obtain ⟨ds, h1, h2, h3⟩ := hshape r hr
      exact ⟨ds, h1, h2, by omega⟩
    rw [show pyFindMatches (renderPhones (p :: ps')).data
        = findMatchesF (renderPhones (p :: ps')).data.length (renderPhones (p :: ps')).data
      from rfl]
    rw [findMatchesF_render (p :: ps') hshape8 _ le_rfl]
    rw [filterMap_normalize_fix _ hshape]
    have hnodup : (p :: ps').Nodup := by
      rw [← hps]
      exact extract_phones_nodup t
    exact dedupFirst_of_nodup hnodup

end Spec2Proof
